import Mathlib

/-!
Verification development for the ya-runtime-emscripten orchestration core
(src/main.rs). The embedding models Unix path component parsing as in
Rust std::path, the path normalizer, the mount resolver, the mount
provisioner, and the execution orchestrator (run_ep / Exec / Open).
Host filesystem paths are modelled as lists of components (List String);
the sandbox and storage collaborators are modelled as event traces and
explicit state, following the spec's interface boundary.
-/

namespace YaEmscripten

/-- Path component, mirroring Rust std::path::Component. `pfx` stands for
the drive/verbatim component kind (Component::Prefix), which Unix path
parsing never produces but the normalizer's match still covers. -/
inductive Component where
  | rootDir : Component
  | curDir : Component
  | parentDir : Component
  | pfx : String → Component
  | normal : String → Component
deriving DecidableEq, Repr

/-- Splits a character list at every slash, keeping empty segments. -/
def splitSlash : List Char → List (List Char)
  | [] => [[]]
  | c :: cs =>
    if c = '/' then [] :: splitSlash cs
    else
      match splitSlash cs with
      | [] => [[c]]
      | seg :: rest => (c :: seg) :: rest

/-- Non-empty slash-separated segments of a path string. -/
def pathSegs (s : String) : List String :=
  ((splitSlash s.toList).filter (fun seg => !seg.isEmpty)).map String.mk

/-- Classification of one non-empty segment, as in std::path. -/
def classifySeg (t : String) : Component :=
  if t = ".." then Component.parentDir
  else if t = "." then Component.curDir
  else Component.normal t

/-- Component parse of a Unix path string, mirroring Path::components():
repeated separators are ignored, `.` segments are dropped except as first
segment of a relative path, an absolute path starts with RootDir. -/
def components (s : String) : List Component :=
  let segs := pathSegs s
  if s.toList.head? = some '/' then
    Component.rootDir :: (segs.filter (fun t => t != ".")).map classifySeg
  else
    match segs with
    | [] => []
    | t :: rest => classifySeg t :: (rest.filter (fun u => u != ".")).map classifySeg

/-- Error kinds surfaced by the commands (io::ErrorKind::PermissionDenied,
zip entry lookup failure, the Exec bail!, create_dir on existing dir). -/
inductive Err where
  | permissionDenied : Err
  | entryNotFound : Err
  | invalidEntryPoint : Err
  | alreadyExists : Err
deriving DecidableEq, Repr

/-- One step of the normalize_path fold over components. -/
def normStep (agg : Except Err (List String)) (part : Component) :
    Except Err (List String) :=
  match agg, part with
  | Except.ok p, Component.rootDir => Except.ok p
  | Except.ok p, Component.pfx _ => Except.ok p
  | Except.ok p, Component.normal t => Except.ok (p ++ [t])
  | _, _ => Except.error Err.permissionDenied

/-- normalize_path from src/main.rs: fold over the path's components from
an empty accumulator; RootDir and Prefix are discarded, Normal is
appended, anything else yields PermissionDenied. -/
def normalize_path (parts : List Component) : Except Err (List String) :=
  parts.foldl normStep (Except.ok [])

/-- normalize_path applied to a path given as a string. -/
def normalizePathStr (s : String) : Except Err (List String) :=
  normalize_path (components s)

/-- True on the component kinds the normalizer accepts. -/
def Component.isGood : Component → Bool
  | Component.curDir => false
  | Component.parentDir => false
  | _ => true

/-- The Normal-component names of a component list, in order. -/
def goodNames : List Component → List String
  | [] => []
  | Component.normal t :: l => t :: goodNames l
  | _ :: l => goodNames l

example : components "/data/cache" = [Component.rootDir, Component.normal "data", Component.normal "cache"] := by decide
example : components "" = [] := by decide
example : components "/" = [Component.rootDir] := by decide
example : components "a/./b" = [Component.normal "a", Component.normal "b"] := by decide
example : components "./a" = [Component.curDir, Component.normal "a"] := by decide
example : normalizePathStr "/data/cache/x" = Except.ok ["data", "cache", "x"] := rfl
example : normalizePathStr "/../y" = Except.error Err.permissionDenied := rfl
example : normalizePathStr "/" = Except.ok [] := rfl

/-- MountPoint from ya_emscripten_meta: carries the declared
container-relative virtual path, read by MountPoint::path(). -/
structure MountPoint where
  path : String
deriving DecidableEq, Repr

/-- EntryPoint from ya_emscripten_meta: stable id and in-archive module path. -/
structure EntryPoint where
  id : String
  wasm_path : String
deriving DecidableEq, Repr

/-- Manifest from ya_emscripten_meta, as used by main.rs. -/
structure Manifest where
  work_dir : Option String
  mount_points : List MountPoint
  main : Option EntryPoint
  entry_points : List EntryPoint
deriving DecidableEq, Repr

/-- Outcome of the resolve-path command, mirroring enum ResolveResult.
The resolved host path is kept as its component list: the Rust code
renders workdir.join(dest).join(remainder) with Display, which joins
these components with separators. -/
inductive ResolveResult where
  | resolvedPath : List String → ResolveResult
  | unresolvedPath : ResolveResult
deriving DecidableEq, Repr

/-- The mount-scanning loop of Resolve::execute: entries are tried in
persisted order; an entry whose declared path fails normalization aborts
(the ? operator); the first entry whose normalized path is a
component-wise prefix of the normalized destination resolves to
workdir/dest-id/remainder and the loop breaks; otherwise the explicit
UnresolvedPath value survives. -/
def resolveLoop (workdirArg : List String) (wd : List String) :
    List (String × MountPoint) → Except Err ResolveResult
  | [] => Except.ok ResolveResult.unresolvedPath
  | (dest, mount_point) :: rest =>
    match normalizePathStr mount_point.path with
    | Except.error e => Except.error e
    | Except.ok mount_path =>
      if mount_path.isPrefixOf wd then
        Except.ok (ResolveResult.resolvedPath (workdirArg ++ dest :: wd.drop mount_path.length))
      else resolveLoop workdirArg wd rest

/-- Resolve::execute on already-parsed mounts.json content: normalize the
destination (? aborts on failure), then scan the mounts in persisted
order. `workdirArg` is the --workdir argument as components. -/
def resolveExecute (workdirArg : List String) (mounts : List (String × MountPoint))
    (destination : String) : Except Err ResolveResult :=
  match normalizePathStr destination with
  | Except.error e => Except.error e
  | Except.ok wd => resolveLoop workdirArg wd mounts

example : resolveExecute ["workdir"] [("id1", ⟨"/data"⟩), ("id2", ⟨"/data/cache"⟩)] "/data/cache/x"
    = Except.ok (ResolveResult.resolvedPath ["workdir", "id1", "cache", "x"]) := rfl
example : resolveExecute ["workdir"] [("id1", ⟨"/data"⟩)] "/database"
    = Except.ok ResolveResult.unresolvedPath := rfl
example : resolveExecute ["workdir"] [("id1", ⟨"/x"⟩), ("id2", ⟨"/../y"⟩)] "/data"
    = Except.error Err.permissionDenied := rfl

/-- Host-side state produced by the deploy command: the set of directories
that exist under consideration (as component lists) and the sequence
persisted to mounts.json. Persistence round-trips the typed sequence, per
the spec's external-interface boundary (serde JSON is a collaborator). -/
structure DeployState where
  dirs : List (List String)
  mountsFile : List (String × MountPoint)
deriving DecidableEq, Repr

/-- Reading mounts.json back from the working directory. -/
def readMounts (st : DeployState) : List (String × MountPoint) :=
  st.mountsFile

/-- The provisioning loop of Create::execute: for each mount point in
manifest order, draw a fresh identifier from the generator (modelling
uuid::Uuid::new_v4, indexed by draw count), create the directory
workdir/id (std::fs::create_dir fails if it already exists), and append
(id, mount_point) to the in-memory args sequence. -/
def provisionGo (gen : Nat → String) (workdirArg : List String) :
    Nat → List (List String) → List (String × MountPoint) → List MountPoint →
    Except Err (List (String × MountPoint) × List (List String))
  | _, fs, acc, [] => Except.ok (acc, fs)
  | i, fs, acc, mount_point :: rest =>
    let id_str := gen i
    let full_path := workdirArg ++ [id_str]
    if full_path ∈ fs then Except.error Err.alreadyExists
    else provisionGo gen workdirArg (i + 1) (full_path :: fs) (acc ++ [(id_str, mount_point)]) rest

/-- Create::execute: provision every mount point of the manifest, then
write the full args sequence to mounts.json in the working directory.
`fs` is the set of directories existing before the command runs. -/
def createExecute (gen : Nat → String) (workdirArg : List String)
    (fs : List (List String)) (m : Manifest) : Except Err DeployState :=
  match provisionGo gen workdirArg 0 fs [] m.mount_points with
  | Except.error e => Except.error e
  | Except.ok (args, fs') => Except.ok ⟨fs', args⟩

/-- The args sequence provisioning builds for a mount-point list when the
identifier draws start at index i. -/
def expectedArgs (gen : Nat → String) : Nat → List MountPoint → List (String × MountPoint)
  | _, [] => []
  | i, mp :: rest => (gen i, mp) :: expectedArgs gen (i + 1) rest

/-- Index of the last dot in a character list, if any. -/
def lastDot : List Char → Option Nat
  | [] => none
  | c :: cs =>
    match lastDot cs with
    | some i => some (i + 1)
    | none => if c = '.' then some (0 : Nat) else none

/-- File stem of a file name, as in Rust Path::file_stem: the whole name
when it has no dot, or begins with its only dot; otherwise the portion
before the final dot. -/
def stemChars (name : List Char) : List Char :=
  match lastDot name with
  | none => name
  | some i => if i = 0 then name else name.take i

/-- Replace the extension of one file name with `ext` (nonempty), as in
Rust Path::set_extension. -/
def withExtSeg (name : String) (ext : String) : String :=
  String.mk (stemChars name.toList ++ '.' :: ext.toList)

/-- Path::with_extension on a component-list path: rewrites the last
component's extension; an empty path (no file name) is unchanged. -/
def with_extension : List String → String → List String
  | [], _ => []
  | [t], ext => [withExtSeg t ext]
  | t :: ts, ext => t :: with_extension ts ext

/-- Rendering of a component-list path, as Display shows a PathBuf built
by successive joins from the empty path. -/
def pathToString : List String → String
  | [] => ""
  | [t] => t
  | t :: ts => t ++ "/" ++ pathToString ts

/-- Sandbox mount mode (NodeMode). -/
inductive Mode where
  | ro : Mode
  | rw : Mode
deriving DecidableEq, Repr

/-- Observable sandbox interactions of run_ep, in call order. -/
inductive Event where
  | workDirEv : String → Event
  | argsEv : List String → Event
  | initEv : Event
  | mountEv : List String → String → Mode → Event
  | runEv : Event
deriving DecidableEq, Repr

/-- run_ep from src/main.rs, with the sandbox as an event trace and the
zip archive as its list of entry names: normalize the entry point's
wasm_path, derive the js companion by replacing the extension, look both
up in the archive by exact name (entry-not-found on a miss), then apply
the optional work_dir override, set the exec args, init, mount the image
read-only at "@", mount each persisted mapping entry read-write at its
declared virtual path in mapping order, and run. -/
def run_ep (image_path : List String) (workdirArg : List String) (archive : List String)
    (ep : EntryPoint) (m : Manifest) (mounts : List (String × MountPoint))
    (args : List String) : Except Err (List Event) :=
  match normalizePathStr ep.wasm_path with
  | Except.error e => Except.error e
  | Except.ok wasm_path =>
    let js_path := with_extension wasm_path "js"
    if archive.contains (pathToString wasm_path) then
      if archive.contains (pathToString js_path) then
        Except.ok
          ((match m.work_dir with
            | some w => [Event.workDirEv w]
            | none => []) ++
            Event.argsEv args :: Event.initEv ::
            Event.mountEv image_path "@" Mode.ro ::
            (mounts.map (fun e => Event.mountEv (workdirArg ++ [e.fst]) e.snd.path Mode.rw) ++
              [Event.runEv]))
      else Except.error Err.entryNotFound
    else Except.error Err.entryNotFound

/-- Exec::execute on a loaded manifest and parsed mounts.json: select the
entry point by exact id match with find, run it, or bail with the
invalid-entry-point error. -/
def execExecute (image_path : List String) (workdirArg : List String) (archive : List String)
    (m : Manifest) (mounts : List (String × MountPoint)) (prog : String)
    (args : List String) : Except Err (List Event) :=
  match m.entry_points.find? (fun ep => ep.id == prog) with
  | some ep => run_ep image_path workdirArg archive ep m mounts args
  | none => Except.error Err.invalidEntryPoint

/-- Open::execute on a loaded manifest: run the main entry point when
declared, otherwise succeed doing nothing. -/
def openExecute (image_path : List String) (workdirArg : List String) (archive : List String)
    (m : Manifest) (mounts : List (String × MountPoint)) : Except Err (List Event) :=
  match m.main with
  | some main_ep => run_ep image_path workdirArg archive main_ep m mounts []
  | none => Except.ok []

example : with_extension ["bin", "run.wasm"] "js" = ["bin", "run.js"] := by decide
example : withExtSeg ".gitignore" "js" = ".gitignore.js" := by decide
example : withExtSeg "a.tar.gz" "js" = "a.tar.js" := by decide
example :
    run_ep ["img.zip"] ["w"] ["bin/run.wasm", "bin/run.js"] ⟨"run", "bin/run.wasm"⟩
      ⟨none, [⟨"/out"⟩], none, [⟨"run", "bin/run.wasm"⟩]⟩ [("id1", ⟨"/out"⟩)] [] =
    Except.ok [Event.argsEv [], Event.initEv, Event.mountEv ["img.zip"] "@" Mode.ro,
      Event.mountEv ["w", "id1"] "/out" Mode.rw, Event.runEv] := rfl
example :
    run_ep ["img.zip"] ["w"] ["bin/run.wasm"] ⟨"run", "bin/run.wasm"⟩
      ⟨none, [], none, []⟩ [] [] = Except.error Err.entryNotFound := rfl
example :
    createExecute (fun _ => "id1") ["w"] [] ⟨none, [⟨"/out"⟩], none, []⟩ =
    Except.ok ⟨[["w", "id1"]], [("id1", ⟨"/out"⟩)]⟩ := rfl

lemma normStep_error (c : Component) :
    normStep (Except.error Err.permissionDenied) c = Except.error Err.permissionDenied := by
  cases c <;> rfl

lemma foldl_normStep_error (l : List Component) :
    l.foldl normStep (Except.error Err.permissionDenied) = Except.error Err.permissionDenied := by
  induction l with
  | nil => rfl
  | cons c cs ih => rw [List.foldl_cons, normStep_error]; exact ih

lemma normStep_bad (p : List String) (c : Component) (hc : c.isGood = false) :
    normStep (Except.ok p) c = Except.error Err.permissionDenied := by
  cases c <;> simp [Component.isGood] at hc <;> rfl

lemma foldl_normStep_good (l : List Component) (h : ∀ c ∈ l, c.isGood = true) :
    ∀ p, l.foldl normStep (Except.ok p) = Except.ok (p ++ goodNames l) := by
  induction l with
  | nil => intro p; simp [goodNames]
  | cons c cs ih =>
    intro p
    have hc : c.isGood = true := h c (List.mem_cons_self c cs)
    have hcs : ∀ x ∈ cs, x.isGood = true := fun x hx => h x (List.mem_cons_of_mem c hx)
    cases c with
    | rootDir => rw [List.foldl_cons]; exact ih hcs p
    | pfx s => rw [List.foldl_cons]; exact ih hcs p
    | normal t =>
      rw [List.foldl_cons]
      show cs.foldl normStep (Except.ok (p ++ [t])) = _
      rw [ih hcs (p ++ [t])]
      simp [goodNames]
    | curDir => simp [Component.isGood] at hc
    | parentDir => simp [Component.isGood] at hc

lemma foldl_normStep_bad (l : List Component) (c : Component) (hmem : c ∈ l)
    (hc : c.isGood = false) :
    ∀ p, l.foldl normStep (Except.ok p) = Except.error Err.permissionDenied := by
  induction l with
  | nil => cases hmem
  | cons d ds ih =>
    intro p
    rcases List.mem_cons.mp hmem with h | h
    · subst h
      rw [List.foldl_cons, normStep_bad p c hc]
      exact foldl_normStep_error ds
    · cases hd : d.isGood with
      | false =>
        rw [List.foldl_cons, normStep_bad p d hd]
        exact foldl_normStep_error ds
      | true =>
        cases d with
        | rootDir => rw [List.foldl_cons]; exact ih h p
        | pfx s => rw [List.foldl_cons]; exact ih h p
        | normal t => rw [List.foldl_cons]; exact ih h (p ++ [t])
        | curDir => simp [Component.isGood] at hd
        | parentDir => simp [Component.isGood] at hd

/-- C2: normalization fails with the permission-denied error exactly when
the input path has a component that is neither root, nor drive-like, nor
a plain named component; one such component anywhere makes the whole
normalization fail, so no partial result survives. -/
theorem normalize_fails_iff_bad_component (parts : List Component) :
    normalize_path parts = Except.error Err.permissionDenied ↔
      ∃ c ∈ parts, c.isGood = false := by
  constructor
  · intro herr
    by_contra hno
    push_neg at hno
    have hall : ∀ c ∈ parts, c.isGood = true := by
      intro c hc
      cases hg : c.isGood with
      | false => exact absurd hg (hno c hc)
      | true => rfl
    have := foldl_normStep_good parts hall []
    rw [normalize_path, this] at herr
    cases herr
  · rintro ⟨c, hmem, hbad⟩
    exact foldl_normStep_bad parts c hmem hbad []

/-- C3: a path made only of root, drive-like and plain named components
normalizes successfully to the relative path listing exactly its named
components in order (root and drive-like components are discarded), and
the all-root path "/" normalizes to the empty relative path. -/
theorem normalize_good_components (parts : List Component)
    (h : ∀ c ∈ parts, c.isGood = true) :
    normalize_path parts = Except.ok (goodNames parts) ∧
      normalizePathStr "/" = Except.ok [] := by
  refine ⟨?_, rfl⟩
  have := foldl_normStep_good parts h []
  rw [normalize_path, this]
  rfl

/-- Witness for C3 at the concrete path "/data/cache". -/
theorem normalize_good_components_witness :
    (∀ c ∈ components "/data/cache", c.isGood = true) ∧
      (normalize_path (components "/data/cache") = Except.ok (goodNames (components "/data/cache")) ∧
        normalizePathStr "/" = Except.ok []) :=
  ⟨by decide, normalize_good_components (components "/data/cache") (by decide)⟩

lemma resolveLoop_skip (workdirArg wd : List String) (e : String × MountPoint)
    (rest : List (String × MountPoint)) (l : List String)
    (hok : normalizePathStr e.snd.path = Except.ok l) (hnp : l.isPrefixOf wd = false) :
    resolveLoop workdirArg wd (e :: rest) = resolveLoop workdirArg wd rest := by
  obtain ⟨dest, mp⟩ := e
  simp only [resolveLoop]
  rw [hok]
  simp [hnp]

/-- C1: scanning the persisted mapping in declaration order, the resolver
returns the host path built from the first entry whose normalized virtual
path is a component-wise prefix of the normalized destination — the
working directory joined with that entry's identifier joined with the
stripped remainder — ignoring every later entry. -/
theorem resolve_first_match (workdirArg : List String) (pre : List (String × MountPoint))
    (id : String) (mp : MountPoint) (post : List (String × MountPoint))
    (destination : String) (nd nmp : List String)
    (hdest : normalizePathStr destination = Except.ok nd)
    (hpre : ∀ e ∈ pre, ∃ l, normalizePathStr e.snd.path = Except.ok l ∧ l.isPrefixOf nd = false)
    (hmp : normalizePathStr mp.path = Except.ok nmp)
    (hmatch : nmp.isPrefixOf nd = true) :
    resolveExecute workdirArg (pre ++ (id, mp) :: post) destination =
      Except.ok (ResolveResult.resolvedPath (workdirArg ++ id :: nd.drop nmp.length)) := by
  rw [resolveExecute, hdest]
  show resolveLoop workdirArg nd (pre ++ (id, mp) :: post) = _
  induction pre with
  | nil =>
    simp only [List.nil_append, resolveLoop]
    rw [hmp]
    simp [hmatch]
  | cons e pre ih =>
    obtain ⟨l, hok, hnp⟩ := hpre e (List.mem_cons_self e pre)
    rw [List.cons_append, resolveLoop_skip workdirArg nd e _ l hok hnp]
    exact ih fun x hx => hpre x (List.mem_cons_of_mem e hx)

/-- Witness for C1 at the spec's concrete scenario: mounts
[("id1", "/data"), ("id2", "/data/cache")] and destination
"/data/cache/x" resolve through "id1", ignoring the later match. -/
theorem resolve_first_match_witness :
    (normalizePathStr "/data/cache/x" = Except.ok ["data", "cache", "x"]) ∧
    (normalizePathStr "/data" = Except.ok ["data"]) ∧
    (List.isPrefixOf ["data"] ["data", "cache", "x"] = true) ∧
    resolveExecute ["workdir"] [("id1", ⟨"/data"⟩), ("id2", ⟨"/data/cache"⟩)] "/data/cache/x" =
      Except.ok (ResolveResult.resolvedPath ["workdir", "id1", "cache", "x"]) :=
  ⟨rfl, rfl, by decide,
    resolve_first_match ["workdir"] [] "id1" ⟨"/data"⟩ [("id2", ⟨"/data/cache"⟩)]
      "/data/cache/x" ["data", "cache", "x"] ["data"] rfl (by simp) rfl (by decide)⟩

/-- C4: "database" has the string "data" as a plain string prefix, yet a
mount declared at "/data" does not match destination "/database": the
comparison is component-wise on normalized paths, so resolution simply
moves past that entry. -/
theorem resolve_componentwise_matching (workdirArg : List String) (id : String)
    (rest : List (String × MountPoint)) :
    ("data".toList.isPrefixOf "database".toList = true) ∧
    resolveExecute workdirArg ((id, ⟨"/data"⟩) :: rest) "/database" =
      resolveLoop workdirArg ["database"] rest := by
  refine ⟨by decide, ?_⟩
  rw [resolveExecute, show normalizePathStr "/database" = Except.ok ["database"] from rfl]
  exact resolveLoop_skip workdirArg ["database"] (id, ⟨"/data"⟩) rest ["data"] rfl (by decide)

/-- C5: when the destination normalizes and no entry's normalized virtual
path is a component-wise prefix of it, resolution succeeds with the
explicit UnresolvedPath result value rather than an error. -/
theorem resolve_no_match_unresolved (workdirArg : List String)
    (mounts : List (String × MountPoint)) (destination : String) (nd : List String)
    (hdest : normalizePathStr destination = Except.ok nd)
    (hmounts : ∀ e ∈ mounts, ∃ l, normalizePathStr e.snd.path = Except.ok l ∧
      l.isPrefixOf nd = false) :
    resolveExecute workdirArg mounts destination = Except.ok ResolveResult.unresolvedPath := by
  rw [resolveExecute, hdest]
  show resolveLoop workdirArg nd mounts = _
  induction mounts with
  | nil => rfl
  | cons e rest ih =>
    obtain ⟨l, hok, hnp⟩ := hmounts e (List.mem_cons_self e rest)
    rw [resolveLoop_skip workdirArg nd e rest l hok hnp]
    exact ih fun x hx => hmounts x (List.mem_cons_of_mem e hx)

/-- Witness for C5: a single mount at "/data" and destination "/other". -/
theorem resolve_no_match_unresolved_witness :
    (normalizePathStr "/other" = Except.ok ["other"]) ∧
    (∀ e ∈ [(("id1" : String), (⟨"/data"⟩ : MountPoint))],
      ∃ l, normalizePathStr e.snd.path = Except.ok l ∧ l.isPrefixOf ["other"] = false) ∧
    resolveExecute ["workdir"] [("id1", ⟨"/data"⟩)] "/other" =
      Except.ok ResolveResult.unresolvedPath := by
  have hm : ∀ e ∈ [(("id1" : String), (⟨"/data"⟩ : MountPoint))],
      ∃ l, normalizePathStr e.snd.path = Except.ok l ∧ l.isPrefixOf ["other"] = false := by
    intro e he
    rw [List.mem_singleton] at he
    subst he
    exact ⟨["data"], rfl, by decide⟩
  exact ⟨rfl, hm, resolve_no_match_unresolved ["workdir"] _ "/other" ["other"] rfl hm⟩

/-- C10: if, before any matching entry, the mapping holds an entry whose
own declared virtual path fails normalization, resolution aborts with the
permission-denied error instead of skipping it or reporting the
unresolved result. -/
theorem resolve_bad_mount_errors (workdirArg : List String)
    (pre : List (String × MountPoint)) (id : String) (mp : MountPoint)
    (post : List (String × MountPoint)) (destination : String) (nd : List String)
    (hdest : normalizePathStr destination = Except.ok nd)
    (hpre : ∀ e ∈ pre, ∃ l, normalizePathStr e.snd.path = Except.ok l ∧ l.isPrefixOf nd = false)
    (hbad : normalizePathStr mp.path = Except.error Err.permissionDenied) :
    resolveExecute workdirArg (pre ++ (id, mp) :: post) destination =
      Except.error Err.permissionDenied := by
  rw [resolveExecute, hdest]
  show resolveLoop workdirArg nd (pre ++ (id, mp) :: post) = _
  induction pre with
  | nil =>
    simp only [List.nil_append, resolveLoop]
    rw [hbad]
  | cons e pre ih =>
    obtain ⟨l, hok, hnp⟩ := hpre e (List.mem_cons_self e pre)
    rw [List.cons_append, resolveLoop_skip workdirArg nd e _ l hok hnp]
    exact ih fun x hx => hpre x (List.mem_cons_of_mem e hx)

/-- Witness for C10: the non-matching entry ("id1", "/x") is scanned
first, then ("id2", "/../y") fails normalization and resolve errors. -/
theorem resolve_bad_mount_errors_witness :
    (normalizePathStr "/data" = Except.ok ["data"]) ∧
    (normalizePathStr "/../y" = Except.error Err.permissionDenied) ∧
    resolveExecute ["workdir"] [("id1", ⟨"/x"⟩), ("id2", ⟨"/../y"⟩)] "/data" =
      Except.error Err.permissionDenied := by
  refine ⟨rfl, rfl, ?_⟩
  have hpre : ∀ e ∈ [(("id1" : String), (⟨"/x"⟩ : MountPoint))],
      ∃ l, normalizePathStr e.snd.path = Except.ok l ∧ l.isPrefixOf ["data"] = false := by
    intro e he
    rw [List.mem_singleton] at he
    subst he
    exact ⟨["x"], rfl, by decide⟩
  exact resolve_bad_mount_errors ["workdir"] [("id1", ⟨"/x"⟩)] "id2" ⟨"/../y"⟩ []
    "/data" ["data"] rfl hpre rfl

lemma expectedArgs_map_snd (gen : Nat → String) :
    ∀ (mps : List MountPoint) (i : Nat), (expectedArgs gen i mps).map Prod.snd = mps := by
  intro mps
  induction mps with
  | nil => intro i; rfl
  | cons mp rest ih =>
    intro i
    simp only [expectedArgs, List.map_cons, ih (i + 1)]

lemma expectedArgs_map_fst (gen : Nat → String) :
    ∀ (mps : List MountPoint) (i : Nat),
      (expectedArgs gen i mps).map Prod.fst =
        (List.range mps.length).map (fun j => gen (i + j)) := by
  intro mps
  induction mps with
  | nil => intro i; rfl
  | cons mp rest ih =>
    intro i
    rw [expectedArgs, List.map_cons, ih (i + 1), List.length_cons,
      List.range_succ_eq_map, List.map_cons, List.map_map]
    refine congrArg₂ List.cons (by rw [Nat.add_zero]) ?_
    apply List.map_congr_left
    intro a _
    show gen (i + 1 + a) = gen (i + Nat.succ a)
    congr 1
    omega

lemma provisionGo_spec (gen : Nat → String) (wd : List String) :
    ∀ (mps : List MountPoint) (i : Nat) (fs : List (List String))
      (acc args : List (String × MountPoint)) (fs' : List (List String)),
      provisionGo gen wd i fs acc mps = Except.ok (args, fs') →
      args = acc ++ expectedArgs gen i mps ∧
      (∀ d ∈ fs, d ∈ fs') ∧
      (∀ j, j < mps.length → (wd ++ [gen (i + j)]) ∈ fs') ∧
      (∀ j, j < mps.length → (wd ++ [gen (i + j)]) ∉ fs) ∧
      (∀ j k, j < k → k < mps.length → gen (i + j) ≠ gen (i + k)) := by
  intro mps
  induction mps with
  | nil =>
    intro i fs acc args fs' h
    simp only [provisionGo, Except.ok.injEq, Prod.mk.injEq] at h
    obtain ⟨rfl, rfl⟩ := h
    refine ⟨by simp [expectedArgs], fun d hd => hd, ?_, ?_, ?_⟩
    · intro j hj; cases hj
    · intro j hj; cases hj
    · intro j k _ hk; cases hk
  | cons mp rest ih =>
    intro i fs acc args fs' h
    rw [provisionGo] at h
    by_cases hmem : (wd ++ [gen i]) ∈ fs
    · rw [if_pos hmem] at h; cases h
    · rw [if_neg hmem] at h
      obtain ⟨hargs, hmono, hin, hnotin, hdist⟩ := ih (i + 1) _ _ args fs' h
      refine ⟨?_, ?_, ?_, ?_, ?_⟩
      · rw [hargs, expectedArgs, List.append_assoc]
        rfl
      · intro d hd
        exact hmono d (List.mem_cons_of_mem _ hd)
      · intro j hj
        cases j with
        | zero =>
          rw [Nat.add_zero]
          exact hmono (wd ++ [gen i]) (List.mem_cons_self _ _)
        | succ j' =>
          have := hin j' (by simpa using hj)
          rw [show i + 1 + j' = i + (j' + 1) by omega] at this
          exact this
      · intro j hj
        cases j with
        | zero => rw [Nat.add_zero]; exact hmem
        | succ j' =>
          have := hnotin j' (by simpa using hj)
          rw [show i + 1 + j' = i + (j' + 1) by omega] at this
          exact fun hc => this (List.mem_cons_of_mem _ hc)
      · intro j k hjk hk
        cases j with
        | zero =>
          cases k with
          | zero => cases hjk
          | succ k' =>
            intro heq
            have hni := hnotin k' (by simpa using hk)
            rw [show i + 1 + k' = i + (k' + 1) by omega] at hni
            rw [Nat.add_zero] at heq
            rw [← heq] at hni
            exact hni (List.mem_cons_self _ _)
        | succ j' =>
          cases k with
          | zero => cases hjk
          | succ k' =>
            have := hdist j' k' (by omega) (by simpa using hk)
            rw [show i + 1 + j' = i + (j' + 1) by omega,
              show i + 1 + k' = i + (k' + 1) by omega] at this
            exact this

/-- C6: when the deploy command succeeds, reading mounts.json back yields
exactly one entry per manifest mount point, with the mount points in their
original declaration order, the identifiers being the successive draws of
the generator (pairwise distinct), and each identifier naming a directory
created directly under the working directory. -/
theorem create_roundtrip (gen : Nat → String) (workdirArg : List String)
    (fs : List (List String)) (m : Manifest) (st : DeployState)
    (h : createExecute gen workdirArg fs m = Except.ok st) :
    (readMounts st).length = m.mount_points.length ∧
    (readMounts st).map Prod.snd = m.mount_points ∧
    (readMounts st).map Prod.fst = (List.range m.mount_points.length).map gen ∧
    (∀ j, j < m.mount_points.length → (workdirArg ++ [gen j]) ∈ st.dirs) ∧
    (∀ j k, j < k → k < m.mount_points.length → gen j ≠ gen k) := by
  rw [createExecute] at h
  cases hgo : provisionGo gen workdirArg 0 fs [] m.mount_points with
  | error e => rw [hgo] at h; cases h
  | ok p =>
    obtain ⟨args, fs'⟩ := p
    rw [hgo] at h
    simp only [Except.ok.injEq] at h
    subst h
    obtain ⟨hargs, _, hin, _, hdist⟩ :=
      provisionGo_spec gen workdirArg m.mount_points 0 fs [] args fs' hgo
    rw [List.nil_append] at hargs
    subst hargs
    have hsnd := expectedArgs_map_snd gen m.mount_points 0
    have hfst := expectedArgs_map_fst gen m.mount_points 0
    simp only [readMounts]
    refine ⟨?_, hsnd, ?_, ?_, ?_⟩
    · have := congrArg List.length hsnd
      simpa using this
    · rw [hfst]
      apply List.map_congr_left
      intro a _
      rw [Nat.zero_add]
    · intro j hj
      have := hin j hj
      rwa [Nat.zero_add] at this
    · intro j k hjk hk
      have := hdist j k hjk hk
      rwa [Nat.zero_add, Nat.zero_add] at this

/-- Witness for C6: a one-mount-point manifest provisioned into an empty
working directory. -/
theorem create_roundtrip_witness :
    (createExecute (fun _ => "id1") ["w"] [] ⟨none, [⟨"/out"⟩], none, []⟩ =
      Except.ok ⟨[["w", "id1"]], [("id1", ⟨"/out"⟩)]⟩) ∧
    ((readMounts ⟨[["w", "id1"]], [("id1", ⟨"/out"⟩)]⟩).length =
        (⟨none, [⟨"/out"⟩], none, []⟩ : Manifest).mount_points.length ∧
      (readMounts ⟨[["w", "id1"]], [("id1", ⟨"/out"⟩)]⟩).map Prod.snd =
        (⟨none, [⟨"/out"⟩], none, []⟩ : Manifest).mount_points ∧
      (readMounts ⟨[["w", "id1"]], [("id1", ⟨"/out"⟩)]⟩).map Prod.fst =
        (List.range (⟨none, [⟨"/out"⟩], none, []⟩ : Manifest).mount_points.length).map
          (fun _ => "id1") ∧
      (∀ j, j < (⟨none, [⟨"/out"⟩], none, []⟩ : Manifest).mount_points.length →
        (["w"] ++ ["id1"]) ∈ (⟨[["w", "id1"]], [("id1", ⟨"/out"⟩)]⟩ : DeployState).dirs) ∧
      (∀ j k, j < k → k < (⟨none, [⟨"/out"⟩], none, []⟩ : Manifest).mount_points.length →
        ("id1" : String) ≠ "id1")) :=
  ⟨rfl, create_roundtrip (fun _ => "id1") ["w"] [] ⟨none, [⟨"/out"⟩], none, []⟩
    ⟨[["w", "id1"]], [("id1", ⟨"/out"⟩)]⟩ rfl⟩

/-- C7: when no manifest entry point has exactly the requested identifier
(String equality, hence case-sensitive), exec fails with the
invalid-entry-point error — an error kind distinct from the archive
entry-not-found and path permission-denied kinds — and, the result being
an error, produces no sandbox events at all. -/
theorem exec_invalid_entry_point (image_path workdirArg : List String)
    (archive : List String) (m : Manifest) (mounts : List (String × MountPoint))
    (prog : String) (args : List String)
    (h : ∀ ep ∈ m.entry_points, ep.id ≠ prog) :
    execExecute image_path workdirArg archive m mounts prog args =
        Except.error Err.invalidEntryPoint ∧
      Err.invalidEntryPoint ≠ Err.entryNotFound ∧
      Err.invalidEntryPoint ≠ Err.permissionDenied := by
  have hnone : m.entry_points.find? (fun ep => ep.id == prog) = none := by
    rw [List.find?_eq_none]
    intro ep hep
    simpa using h ep hep
  refine ⟨?_, by decide, by decide⟩
  rw [execExecute, hnone]

/-- Witness for C7: requesting "RUN" against a manifest whose only entry
point is named "run". -/
theorem exec_invalid_entry_point_witness :
    (∀ ep ∈ (⟨none, [], none, [⟨"run", "bin/run.wasm"⟩]⟩ : Manifest).entry_points,
      ep.id ≠ "RUN") ∧
    (execExecute ["img.zip"] ["w"] ["bin/run.wasm", "bin/run.js"]
        ⟨none, [], none, [⟨"run", "bin/run.wasm"⟩]⟩ [] "RUN" [] =
        Except.error Err.invalidEntryPoint ∧
      Err.invalidEntryPoint ≠ Err.entryNotFound ∧
      Err.invalidEntryPoint ≠ Err.permissionDenied) :=
  ⟨by decide, exec_invalid_entry_point ["img.zip"] ["w"] ["bin/run.wasm", "bin/run.js"]
    ⟨none, [], none, [⟨"run", "bin/run.wasm"⟩]⟩ [] "RUN" [] (by decide)⟩

/-- C8: once the entry point's module path normalizes, the companion
script path is that normalized path with its extension replaced by "js";
if either artifact is missing from the archive under its exact rendered
name the run fails with entry-not-found, and when both are present the
sandbox interaction is exactly: optional work-dir override, exec args,
init, the image mounted read-only at the confinement root "@", then every
persisted mapping entry mounted read-write at its declared virtual path
in mapping order, and finally the run call. -/
theorem run_ep_orchestration (image_path workdirArg : List String) (archive : List String)
    (ep : EntryPoint) (m : Manifest) (mounts : List (String × MountPoint))
    (args : List String) (w : List String)
    (hnorm : normalizePathStr ep.wasm_path = Except.ok w) :
    (archive.contains (pathToString w) = false ∨
        archive.contains (pathToString (with_extension w "js")) = false →
      run_ep image_path workdirArg archive ep m mounts args =
        Except.error Err.entryNotFound) ∧
    (archive.contains (pathToString w) = true →
      archive.contains (pathToString (with_extension w "js")) = true →
      run_ep image_path workdirArg archive ep m mounts args =
        Except.ok ((match m.work_dir with
            | some wo => [Event.workDirEv wo]
            | none => []) ++
          Event.argsEv args :: Event.initEv ::
          Event.mountEv image_path "@" Mode.ro ::
          (mounts.map (fun e => Event.mountEv (workdirArg ++ [e.fst]) e.snd.path Mode.rw) ++
            [Event.runEv]))) := by
  constructor
  · intro habs
    simp only [run_ep]
    rw [hnorm]
    rcases habs with h1 | h1 <;> simp at h1 <;> simp [h1]
  · intro h1 h2
    simp only [run_ep]
    rw [hnorm]
    simp at h1 h2
    simp [h1, h2]

/-- Witness for C8 at the spec's end-to-end scenario: entry "run" with
module bin/run.wasm, companion bin/run.js, one provisioned mount at
"/out". -/
theorem run_ep_orchestration_witness :
    (normalizePathStr "bin/run.wasm" = Except.ok ["bin", "run.wasm"]) ∧
    run_ep ["img.zip"] ["w"] ["bin/run.wasm", "bin/run.js"] ⟨"run", "bin/run.wasm"⟩
        ⟨none, [⟨"/out"⟩], none, [⟨"run", "bin/run.wasm"⟩]⟩ [("id1", ⟨"/out"⟩)] [] =
      Except.ok [Event.argsEv [], Event.initEv, Event.mountEv ["img.zip"] "@" Mode.ro,
        Event.mountEv ["w", "id1"] "/out" Mode.rw, Event.runEv] :=
  ⟨rfl,
    (run_ep_orchestration ["img.zip"] ["w"] ["bin/run.wasm", "bin/run.js"]
      ⟨"run", "bin/run.wasm"⟩ ⟨none, [⟨"/out"⟩], none, [⟨"run", "bin/run.wasm"⟩]⟩
      [("id1", ⟨"/out"⟩)] [] ["bin", "run.wasm"] rfl).2 rfl rfl⟩

/-- C9: opening an image whose loaded manifest declares no main entry
point succeeds with an empty sandbox trace — no extraction, no mounting,
no execution. -/
theorem open_no_main (image_path workdirArg : List String) (archive : List String)
    (wo : Option String) (mps : List MountPoint) (eps : List EntryPoint)
    (mounts : List (String × MountPoint)) :
    openExecute image_path workdirArg archive ⟨wo, mps, none, eps⟩ mounts =
      Except.ok [] := rfl

/-- Witness for C2 at the concrete component list of the path "/../y". -/
theorem normalize_fails_iff_bad_component_witness :
    normalize_path [Component.rootDir, Component.parentDir, Component.normal "y"] =
        Except.error Err.permissionDenied ↔
      ∃ c ∈ [Component.rootDir, Component.parentDir, Component.normal "y"],
        c.isGood = false :=
  normalize_fails_iff_bad_component [Component.rootDir, Component.parentDir, Component.normal "y"]

/-- Witness for C4 with a single-entry mapping: "/database" resolves past
the "/data" mount to the unresolved result. -/
theorem resolve_componentwise_matching_witness :
    ("data".toList.isPrefixOf "database".toList = true) ∧
    resolveExecute ["workdir"] [("id1", ⟨"/data"⟩)] "/database" =
      resolveLoop ["workdir"] ["database"] [] :=
  resolve_componentwise_matching ["workdir"] "id1" []

/-- Witness for C9 on a concrete manifest with mount points and named
entry points but no main. -/
theorem open_no_main_witness :
    openExecute ["img.zip"] ["w"] ["bin/run.wasm", "bin/run.js"]
      ⟨some "/out", [⟨"/out"⟩], none, [⟨"run", "bin/run.wasm"⟩]⟩ [("id1", ⟨"/out"⟩)] =
      Except.ok [] :=
  open_no_main ["img.zip"] ["w"] ["bin/run.wasm", "bin/run.js"] (some "/out") [⟨"/out"⟩]
    [⟨"run", "bin/run.wasm"⟩] [("id1", ⟨"/out"⟩)]

end YaEmscripten
